import Mathlib

/-!
Verification of the tile-streaming core of a 2-D tilemap game.

The source consists of two Bevy applications: src/main.rs (the editor
variant with a paint mode) and src/main2.rs (the camera-toggle variant).
The decision logic — which tiles exist, what terrain they carry, and when
that changes — is embedded shallowly below.  Floating-point world
coordinates are modelled as exact rationals, the Bevy ECS entity store as
an explicit list of tile entities, and the HashMap / HashSet resources of
the TileMap resource as an association list and a Finset.  The procedural
noise field (the averaged simplex + perlin sample) is abstracted as a
parameter noise : ℤ × ℤ → ℚ giving the averaged sample at a grid
coordinate; every theorem is universally quantified over it, so the
results hold for any deterministic noise configuration.  Spawn passes
additionally thread a log of the coordinates at which the noise field was
evaluated, so that memoization claims can be stated.
-/

namespace TilemapGame

/-- Terrain categories: the TileType enum of the source. -/
inductive TileType where
  | Grass
  | Water
  | Mountain
deriving DecidableEq, Repr

/-- Tile edge length in world units (const TILE_SIZE: f32 = 32.0). -/
def TILE_SIZE : ℚ := 32

/-- Half-width of the square visibility window (const VIEW_RADIUS: i32 = 60). -/
def VIEW_RADIUS : ℤ := 60

/-- Rounding to the nearest integer, halves away from zero: the semantics of
Rust's f32::round, applied here to exact rationals. -/
def roundRat (q : ℚ) : ℤ :=
  if 0 ≤ q then ⌊q + 1 / 2⌋ else ⌈q - 1 / 2⌉

/-- World position of a grid coordinate: each axis multiplied by TILE_SIZE,
as in Transform::from_xyz(x as f32 * TILE_SIZE, y as f32 * TILE_SIZE, 0.0). -/
def to_world (c : ℤ × ℤ) : ℚ × ℚ :=
  (c.1 * TILE_SIZE, c.2 * TILE_SIZE)

/-- Grid coordinate of a world position: each axis divided by TILE_SIZE and
rounded, as in (pos / TILE_SIZE).round() as i32. -/
def to_grid (p : ℚ × ℚ) : ℤ × ℤ :=
  (roundRat (p.1 / TILE_SIZE), roundRat (p.2 / TILE_SIZE))

/-- The visibility window: the set of grid coordinates (x, y) with x in
[cx - R, cx + R] and y in [cy - R, cy + R], as built by the nested
inclusive ranges in update_tiles. -/
def visibleTiles (cx cy R : ℤ) : Finset (ℤ × ℤ) :=
  Finset.Icc (cx - R) (cx + R) ×ˢ Finset.Icc (cy - R) (cy + R)

/-- The inclusive integer range a..=b as a list. -/
def intRangeIcc (a b : ℤ) : List ℤ :=
  (List.range (b + 1 - a).toNat).map (fun i : ℕ => a + (i : ℤ))

/-- The visibility window as the list produced by the source's iteration:
((cy-R)..=(cy+R)).flat_map(|y| (cx-R..=cx+R).map(move |x| (x, y))). -/
def windowList (cx cy R : ℤ) : List (ℤ × ℤ) :=
  (intRangeIcc (cy - R) (cy + R)).flatMap
    (fun y => (intRangeIcc (cx - R) (cx + R)).map (fun x => (x, y)))

/-- Default camera position substituted when no camera transform exists:
vec3(0.0, 0.0, -5.0) in main.rs; its 2-D projection is the origin. -/
def DEFAULT_CAM_POS : ℚ × ℚ × ℚ := (0, 0, -5)

/-- Grid coordinate of the viewpoint for a tick of main.rs:
cam_query.single().map_or(vec3(0.0, 0.0, -5.0), |t| t.translation), then
each of x and y divided by TILE_SIZE and rounded. -/
def camCenter (cam : Option (ℚ × ℚ × ℚ)) : ℤ × ℤ :=
  let p := cam.getD DEFAULT_CAM_POS
  (roundRat (p.1 / TILE_SIZE), roundRat (p.2.1 / TILE_SIZE))

/-- The visibility window computed by one tick of update_tiles in main.rs. -/
def tickWindow (cam : Option (ℚ × ℚ × ℚ)) : Finset (ℤ × ℤ) :=
  visibleTiles (camCenter cam).1 (camCenter cam).2 VIEW_RADIUS

/-- Threshold classification of an averaged noise sample, the match in the
or_insert_with closure: n < -0.2 gives Water, n < 0.4 gives Grass,
otherwise Mountain. -/
def classifyValue (n : ℚ) : TileType :=
  if n < -(1 / 5) then TileType.Water
  else if n < 2 / 5 then TileType.Grass
  else TileType.Mountain

/-- A live renderable tile entity: its Transform translation (x, y part),
and the SerializableTile component (stored coordinate and terrain). -/
structure Entity where
  pos : ℚ × ℚ
  coord : ℤ × ℤ
  ttype : TileType
deriving DecidableEq, Repr

/-- The TileMap resource together with the ECS tile entities:
tiles is the HashMap<(i32,i32), TileType> cache (association list, most
recent insertion first), spawned the HashSet<(i32,i32)> live set, and
entities the renderable tile objects the spawn pass has created. -/
structure GameState where
  tiles : List ((ℤ × ℤ) × TileType)
  spawned : Finset (ℤ × ℤ)
  entities : List Entity
deriving DecidableEq

/-- HashMap lookup on the association-list model. -/
def lookupTile : List ((ℤ × ℤ) × TileType) → ℤ × ℤ → Option TileType
  | [], _ => none
  | (k, v) :: rest, c => if k = c then some v else lookupTile rest c

/-- HashMap insert (overwriting) on the association-list model. -/
def insertTile (ts : List ((ℤ × ℤ) × TileType)) (c : ℤ × ℤ) (t : TileType) :
    List ((ℤ × ℤ) × TileType) :=
  (c, t) :: ts

/-- The despawn pass of update_tiles: every entity whose grid coordinate,
re-derived from its transform, is outside the window is despawned, and that
derived coordinate is removed from the live set.  The cache is untouched. -/
def despawnPass (w : Finset (ℤ × ℤ)) (s : GameState) : GameState :=
  { tiles := s.tiles
    spawned := s.spawned.filter (fun c => c ∈ w ∨ ∀ e ∈ s.entities, to_grid e.pos ≠ c)
    entities := s.entities.filter (fun e => decide (to_grid e.pos ∈ w)) }

/-- One step of the spawn pass of main.rs for one window coordinate: skip if
already live; otherwise get-or-generate the cache entry (the noise field is
evaluated only inside or_insert_with, i.e. only on a cache miss, and the
evaluated coordinate is appended to the log), then spawn the renderable at
the mapped world position and mark the coordinate live. -/
def spawnStep (noise : ℤ × ℤ → ℚ) (p : GameState × List (ℤ × ℤ)) (c : ℤ × ℤ) :
    GameState × List (ℤ × ℤ) :=
  if c ∈ p.1.spawned then p
  else
    match lookupTile p.1.tiles c with
    | some t =>
        ({ tiles := p.1.tiles
           spawned := insert c p.1.spawned
           entities := p.1.entities ++ [⟨to_world c, c, t⟩] }, p.2)
    | none =>
        ({ tiles := insertTile p.1.tiles c (classifyValue (noise c))
           spawned := insert c p.1.spawned
           entities := p.1.entities ++ [⟨to_world c, c, classifyValue (noise c)⟩] },
         p.2 ++ [c])

/-- One tick of update_tiles in main.rs: resolve the viewpoint (defaulting
when absent), compute the window, run the despawn pass, then the spawn pass
over every window coordinate.  Returns the new state together with the log
of coordinates at which the noise field was evaluated this tick. -/
def update_tilesLog (noise : ℤ × ℤ → ℚ) (cam : Option (ℚ × ℚ × ℚ)) (s : GameState) :
    GameState × List (ℤ × ℤ) :=
  (windowList (camCenter cam).1 (camCenter cam).2 VIEW_RADIUS).foldl (spawnStep noise)
    (despawnPass (tickWindow cam) s, [])

/-- One tick of update_tiles in main.rs, state part. -/
def update_tiles (noise : ℤ × ℤ → ℚ) (cam : Option (ℚ × ℚ × ℚ)) (s : GameState) :
    GameState :=
  (update_tilesLog noise cam s).1

/-- One reconciliation tick applied to an accumulated (state, noise log) pair. -/
def tickStep (noise : ℤ × ℤ → ℚ) (p : GameState × List (ℤ × ℤ))
    (cam : Option (ℚ × ℚ × ℚ)) : GameState × List (ℤ × ℤ) :=
  ((update_tilesLog noise cam p.1).1, p.2 ++ (update_tilesLog noise cam p.1).2)

/-- A run of reconciliation ticks (one camera sample per tick), accumulating
the log of noise evaluations across the whole run. -/
def runTicksLog (noise : ℤ × ℤ → ℚ) (cams : List (Option (ℚ × ℚ × ℚ)))
    (s : GameState) : GameState × List (ℤ × ℤ) :=
  cams.foldl (tickStep noise) (s, [])

/-- A run of reconciliation ticks, state part. -/
def runTicks (noise : ℤ × ℤ → ℚ) (cams : List (Option (ℚ × ℚ × ℚ)))
    (s : GameState) : GameState :=
  (runTicksLog noise cams s).1

/-- One step of the spawn pass of main2.rs.  Unlike main.rs, the averaged
noise sample is computed eagerly, before the or_insert_with call, so the
noise field is evaluated for every visible non-live coordinate even when
its category is already cached; only the classification and insertion are
skipped on a hit. -/
def spawnStep2 (noise : ℤ × ℤ → ℚ) (p : GameState × List (ℤ × ℤ)) (c : ℤ × ℤ) :
    GameState × List (ℤ × ℤ) :=
  if c ∈ p.1.spawned then p
  else
    match lookupTile p.1.tiles c with
    | some t =>
        ({ tiles := p.1.tiles
           spawned := insert c p.1.spawned
           entities := p.1.entities ++ [⟨to_world c, c, t⟩] }, p.2 ++ [c])
    | none =>
        ({ tiles := insertTile p.1.tiles c (classifyValue (noise c))
           spawned := insert c p.1.spawned
           entities := p.1.entities ++ [⟨to_world c, c, classifyValue (noise c)⟩] },
         p.2 ++ [c])

/-- The body of update_tiles in main2.rs, after the camera transform has
been successfully unwrapped. -/
def tick2Body (noise : ℤ × ℤ → ℚ) (camPos : ℚ × ℚ × ℚ) (s : GameState) :
    GameState × List (ℤ × ℤ) :=
  (windowList (roundRat (camPos.1 / TILE_SIZE)) (roundRat (camPos.2.1 / TILE_SIZE))
      VIEW_RADIUS).foldl (spawnStep2 noise)
    (despawnPass (visibleTiles (roundRat (camPos.1 / TILE_SIZE))
      (roundRat (camPos.2.1 / TILE_SIZE)) VIEW_RADIUS) s, [])

/-- One tick of update_tiles in main2.rs: cam_query.single() is unwrapped,
so a missing camera aborts the tick (modelled as none, the panic). -/
def update_tiles2 (noise : ℤ × ℤ → ℚ) (cam : Option (ℚ × ℚ × ℚ)) (s : GameState) :
    Option (GameState × List (ℤ × ℤ)) :=
  cam.map (fun p => tick2Body noise p s)

/-- Editor modes of main.rs. -/
inductive EditorMode where
  | Pan
  | Paint
deriving DecidableEq, Repr

/-- The paint_tiles system of main.rs: in Paint mode, while the pointer is
pressed at a world position, the targeted grid coordinate receives the
selected category in the cache (an unconditional insert, no classifier),
and if a tile entity with that stored coordinate exists, the first such
entity is despawned and the coordinate removed from the live set. -/
def paint_tiles (mode : EditorMode) (pressed : Bool) (pointerWorld : Option (ℚ × ℚ))
    (selected : TileType) (s : GameState) : GameState :=
  if mode ≠ EditorMode.Paint then s
  else
    match pointerWorld with
    | none => s
    | some wp =>
      if pressed then
        match s.entities.find? (fun e => decide (e.coord = to_grid wp)) with
        | some _ =>
            { tiles := insertTile s.tiles (to_grid wp) selected
              spawned := s.spawned.erase (to_grid wp)
              entities := s.entities.eraseP (fun e => decide (e.coord = to_grid wp)) }
        | none =>
            { tiles := insertTile s.tiles (to_grid wp) selected
              spawned := s.spawned
              entities := s.entities }
      else s

/-- Well-formedness of the live state, maintained by every pass: stored
coordinates of live entities are pairwise distinct, every entity sits at
the world position mapped from its stored coordinate, and the live set is
exactly the set of stored coordinates of live entities. -/
def WF (s : GameState) : Prop :=
  (s.entities.map Entity.coord).Nodup ∧
  (∀ e ∈ s.entities, e.pos = to_world e.coord) ∧
  (∀ c : ℤ × ℤ, c ∈ s.spawned ↔ ∃ e ∈ s.entities, e.coord = c)

/-- A trivial noise configuration, used for concrete instances. -/
def zeroNoise : ℤ × ℤ → ℚ := fun _ => 0

/-- The initial state: empty cache, empty live set, no entities. -/
def emptyState : GameState :=
  { tiles := [], spawned := ∅, entities := [] }

/-- A state in which (0, 0) has been classified as Grass and later
despawned: the cache remembers it but it is not live. -/
def oneTileState : GameState :=
  { tiles := [((0, 0), TileType.Grass)], spawned := ∅, entities := [] }

/-! ### Coordinate mapper and window lemmas -/

/-- Rounding an integer-valued rational returns that integer. -/
lemma roundRat_intCast (n : ℤ) : roundRat (n : ℚ) = n := by
  unfold roundRat
  rcases le_or_lt 0 ((n : ℚ)) with h | h
  · rw [if_pos h, show (n : ℚ) + 1 / 2 = 1 / 2 + (n : ℚ) by ring, Int.floor_add_int]
    norm_num
  · rw [if_neg (not_le.mpr h), show (n : ℚ) - 1 / 2 = -(1 / 2) + (n : ℚ) by ring,
      Int.ceil_add_int]
    norm_num

/-- The round-trip law of the coordinate mapper. -/
lemma grid_world_roundtrip (c : ℤ × ℤ) : to_grid (to_world c) = c := by
  obtain ⟨x, y⟩ := c
  have h32 : (TILE_SIZE : ℚ) ≠ 0 := by norm_num [TILE_SIZE]
  unfold to_grid to_world
  simp only
  rw [mul_div_cancel_right₀ _ h32, mul_div_cancel_right₀ _ h32,
    roundRat_intCast, roundRat_intCast]

/-- Membership in the inclusive integer range list. -/
lemma mem_intRangeIcc {a b x : ℤ} : x ∈ intRangeIcc a b ↔ a ≤ x ∧ x ≤ b := by
  unfold intRangeIcc
  simp only [List.mem_map, List.mem_range]
  constructor
  · rintro ⟨i, hi, rfl⟩
    omega
  · rintro ⟨h1, h2⟩
    exact ⟨(x - a).toNat, by omega, by omega⟩

/-- The window list enumerates exactly the visibility window. -/
lemma mem_windowList {cx cy R : ℤ} {c : ℤ × ℤ} :
    c ∈ windowList cx cy R ↔ c ∈ visibleTiles cx cy R := by
  unfold windowList visibleTiles
  simp only [List.mem_flatMap, List.mem_map, Finset.mem_product, Finset.mem_Icc,
    mem_intRangeIcc]
  constructor
  · rintro ⟨y, hy, x, hx, rfl⟩
    exact ⟨hx, hy⟩
  · rintro ⟨hx, hy⟩
    exact ⟨c.2, hy, c.1, hx, rfl⟩

/-- C3: the visibility window contains (x, y) iff the Chebyshev distance to
the viewpoint grid coordinate is at most R (closed on both bounds), and it
has exactly (2R+1)^2 members. -/
theorem window_correctness (cx cy R : ℤ) (hR : 0 ≤ R) :
    (∀ x y : ℤ, (x, y) ∈ visibleTiles cx cy R ↔ max |x - cx| |y - cy| ≤ R) ∧
    ((visibleTiles cx cy R).card : ℤ) = (2 * R + 1) ^ 2 := by
  constructor
  · intro x y
    simp only [visibleTiles, Finset.mem_product, Finset.mem_Icc]
    rw [max_le_iff, abs_le, abs_le]
    omega
  · unfold visibleTiles
    have h1 : cx + R + 1 - (cx - R) = 2 * R + 1 := by ring
    have h2 : cy + R + 1 - (cy - R) = 2 * R + 1 := by ring
    rw [Finset.card_product, Int.card_Icc, Int.card_Icc, h1, h2, Nat.cast_mul,
      Int.toNat_of_nonneg (by omega)]
    ring

/-- Witness for C3 at viewpoint (0, 0) with radius 2. -/
theorem window_correctness_witness :
    (0 : ℤ) ≤ 2 ∧ ((3, 1) ∈ visibleTiles 0 0 2 ↔ max |(3 : ℤ) - 0| |(1 : ℤ) - 0| ≤ 2) ∧
      ((visibleTiles 0 0 2).card : ℤ) = (2 * 2 + 1) ^ 2 :=
  ⟨by norm_num, (window_correctness 0 0 2 (by norm_num)).1 3 1,
    (window_correctness 0 0 2 (by norm_num)).2⟩

/-- C5: mapping a grid coordinate to its world position and back yields the
same coordinate: to_grid (to_world c) = c for all c. -/
theorem to_grid_to_world_roundtrip (c : ℤ × ℤ) : to_grid (to_world c) = c :=
  grid_world_roundtrip c

/-- C4: the classifier maps an averaged sample v to Water when v < -0.2, to
Grass when -0.2 ≤ v < 0.4, and to Mountain when v ≥ 0.4; in particular
-0.5 gives Water, 0.1 gives Grass and 0.9 gives Mountain. -/
theorem classifier_thresholds (v : ℚ) :
    (v < -(1 / 5) → classifyValue v = TileType.Water) ∧
    (-(1 / 5) ≤ v → v < 2 / 5 → classifyValue v = TileType.Grass) ∧
    (2 / 5 ≤ v → classifyValue v = TileType.Mountain) ∧
    classifyValue (-(1 / 2)) = TileType.Water ∧
    classifyValue (1 / 10) = TileType.Grass ∧
    classifyValue (9 / 10) = TileType.Mountain := by
  refine ⟨?_, ?_, ?_, ?_, ?_, ?_⟩
  · intro h
    rw [classifyValue, if_pos h]
  · intro h1 h2
    rw [classifyValue, if_neg (not_lt.mpr h1), if_pos h2]
  · intro h
    rw [classifyValue, if_neg (by linarith), if_neg (not_lt.mpr h)]
  · norm_num [classifyValue]
  · norm_num [classifyValue]
  · norm_num [classifyValue]

/-- Witness for C4 at the samples -1, 0 and 1. -/
theorem classifier_thresholds_witness :
    ((-1 : ℚ) < -(1 / 5) ∧ classifyValue (-1) = TileType.Water) ∧
    ((-(1 / 5) : ℚ) ≤ 0 ∧ (0 : ℚ) < 2 / 5 ∧ classifyValue 0 = TileType.Grass) ∧
    ((2 / 5 : ℚ) ≤ 1 ∧ classifyValue 1 = TileType.Mountain) :=
  ⟨⟨by norm_num, (classifier_thresholds (-1)).1 (by norm_num)⟩,
   ⟨by norm_num, by norm_num, (classifier_thresholds 0).2.1 (by norm_num) (by norm_num)⟩,
   ⟨by norm_num, (classifier_thresholds 1).2.2.1 (by norm_num)⟩⟩

/-! ### Cache lemmas -/

/-- Lookup after inserting at the same key. -/
lemma lookupTile_insert_self (ts : List ((ℤ × ℤ) × TileType)) (c : ℤ × ℤ) (t : TileType) :
    lookupTile (insertTile ts c t) c = some t := by
  simp [insertTile, lookupTile]

/-- Lookup after inserting at a different key. -/
lemma lookupTile_insert_ne (ts : List ((ℤ × ℤ) × TileType)) (c' c : ℤ × ℤ) (t : TileType)
    (h : c' ≠ c) : lookupTile (insertTile ts c' t) c = lookupTile ts c := by
  simp [insertTile, lookupTile, h]

/-! ### Spawn-step lemmas (main.rs) -/

/-- A spawn step never removes or changes an existing cache entry. -/
lemma spawnStep_tiles_mono (noise : ℤ × ℤ → ℚ) (p : GameState × List (ℤ × ℤ))
    (c' c : ℤ × ℤ) (t : TileType) (h : lookupTile p.1.tiles c = some t) :
    lookupTile (spawnStep noise p c').1.tiles c = some t := by
  unfold spawnStep
  split
  · exact h
  · split
    · exact h
    · rename_i hnone
      have hne : c' ≠ c := fun he => by rw [he, h] at hnone; cases hnone
      show lookupTile (insertTile p.1.tiles c' (classifyValue (noise c'))) c = some t
      rw [lookupTile_insert_ne _ _ _ _ hne]
      exact h

/-- A spawn step makes exactly its coordinate live (a no-op when it already is). -/
lemma spawnStep_spawned (noise : ℤ × ℤ → ℚ) (p : GameState × List (ℤ × ℤ)) (c : ℤ × ℤ) :
    (spawnStep noise p c).1.spawned = insert c p.1.spawned := by
  unfold spawnStep
  split
  · rename_i h
    exact (Finset.insert_eq_self.mpr h).symm
  · split <;> rfl

/-- A spawn step never destroys an existing entity. -/
lemma spawnStep_entities_mono (noise : ℤ × ℤ → ℚ) (p : GameState × List (ℤ × ℤ))
    (c : ℤ × ℤ) (e : Entity) (h : e ∈ p.1.entities) :
    e ∈ (spawnStep noise p c).1.entities := by
  unfold spawnStep
  split
  · exact h
  · split <;> exact List.mem_append_left _ h

/-- A spawn step preserves cache entries and never logs a noise evaluation
for an already-cached coordinate. -/
lemma spawnStep_preserve (noise : ℤ × ℤ → ℚ) (p : GameState × List (ℤ × ℤ))
    (c' c : ℤ × ℤ) (t : TileType) (h : lookupTile p.1.tiles c = some t) (hl : c ∉ p.2) :
    lookupTile (spawnStep noise p c').1.tiles c = some t ∧ c ∉ (spawnStep noise p c').2 := by
  refine ⟨spawnStep_tiles_mono noise p c' c t h, ?_⟩
  unfold spawnStep
  split
  · exact hl
  · split
    · exact hl
    · rename_i hnone
      have hne : c' ≠ c := fun he => by rw [he, h] at hnone; cases hnone
      show c ∉ p.2 ++ [c']
      simp only [List.mem_append, List.mem_singleton]
      rintro (hc | hc)
      · exact hl hc
      · exact hne hc.symm

/-- The noise-evaluation log of a spawn step stays duplicate-free, and every
logged coordinate has a cache entry afterwards. -/
lemma spawnStep_log_inv (noise : ℤ × ℤ → ℚ) (p : GameState × List (ℤ × ℤ)) (c' : ℤ × ℤ)
    (hnd : p.2.Nodup) (hc : ∀ c ∈ p.2, ∃ t, lookupTile p.1.tiles c = some t) :
    (spawnStep noise p c').2.Nodup ∧
      ∀ c ∈ (spawnStep noise p c').2, ∃ t, lookupTile (spawnStep noise p c').1.tiles c = some t := by
  unfold spawnStep
  split
  · exact ⟨hnd, hc⟩
  · split
    · exact ⟨hnd, hc⟩
    · rename_i hnone
      constructor
      · refine List.Nodup.append hnd (List.nodup_singleton _) ?_
        intro a ha hb
        rw [List.mem_singleton] at hb
        subst hb
        obtain ⟨t, ht⟩ := hc a ha
        rw [ht] at hnone
        cases hnone
      · intro c hcm
        rw [List.mem_append, List.mem_singleton] at hcm
        rcases hcm with hcm | rfl
        · obtain ⟨t, ht⟩ := hc c hcm
          have hne : c' ≠ c := fun he => by rw [he, ht] at hnone; cases hnone
          refine ⟨t, ?_⟩
          show lookupTile (insertTile p.1.tiles c' (classifyValue (noise c'))) c = some t
          rw [lookupTile_insert_ne _ _ _ _ hne]
          exact ht
        · exact ⟨classifyValue (noise c), lookupTile_insert_self _ _ _⟩

/-- Adding a fresh live entity at a not-yet-live coordinate preserves
well-formedness, whatever happens to the cache. -/
lemma WF_addEntity (s : GameState) (ts : List ((ℤ × ℤ) × TileType)) (c : ℤ × ℤ)
    (t : TileType) (h : WF s) (hc : c ∉ s.spawned) :
    WF { tiles := ts, spawned := insert c s.spawned,
         entities := s.entities ++ [⟨to_world c, c, t⟩] } := by
  obtain ⟨hnd, hpos, hiff⟩ := h
  refine ⟨?_, ?_, ?_⟩
  · rw [List.map_append]
    refine List.Nodup.append hnd (by simp) ?_
    intro a ha hb
    simp only [List.map_cons, List.map_nil, List.mem_singleton] at hb
    subst hb
    rw [List.mem_map] at ha
    obtain ⟨e, he, hec⟩ := ha
    exact hc ((hiff _).mpr ⟨e, he, hec⟩)
  · intro e he
    rw [List.mem_append, List.mem_singleton] at he
    rcases he with he | rfl
    · exact hpos e he
    · rfl
  · intro c'
    rw [Finset.mem_insert]
    constructor
    · rintro (rfl | hsp)
      · exact ⟨⟨to_world c', c', t⟩, List.mem_append_right _ (List.mem_singleton_self _), rfl⟩
      · obtain ⟨e, he, hec⟩ := (hiff c').mp hsp
        exact ⟨e, List.mem_append_left _ he, hec⟩
    · rintro ⟨e, he, hec⟩
      rw [List.mem_append, List.mem_singleton] at he
      rcases he with he | rfl
      · exact Or.inr ((hiff c').mpr ⟨e, he, hec⟩)
      · exact Or.inl hec.symm

/-- A spawn step preserves well-formedness. -/
lemma spawnStep_WF (noise : ℤ × ℤ → ℚ) (p : GameState × List (ℤ × ℤ)) (c : ℤ × ℤ)
    (h : WF p.1) : WF (spawnStep noise p c).1 := by
  unfold spawnStep
  split
  · exact h
  · rename_i hns
    split
    · exact WF_addEntity p.1 _ c _ h hns
    · exact WF_addEntity p.1 _ c _ h hns

/-! ### Spawn-pass fold lemmas (main.rs) -/

/-- The spawn pass preserves cache entries and never logs a noise evaluation
for an already-cached coordinate. -/
lemma foldl_spawnStep_preserve (noise : ℤ × ℤ → ℚ) (l : List (ℤ × ℤ))
    (p : GameState × List (ℤ × ℤ)) (c : ℤ × ℤ) (t : TileType)
    (h : lookupTile p.1.tiles c = some t) (hl : c ∉ p.2) :
    lookupTile (l.foldl (spawnStep noise) p).1.tiles c = some t ∧
      c ∉ (l.foldl (spawnStep noise) p).2 := by
  induction l generalizing p with
  | nil => exact ⟨h, hl⟩
  | cons a l ih =>
      obtain ⟨h1, h2⟩ := spawnStep_preserve noise p a c t h hl
      exact ih _ h1 h2

/-- The spawn pass keeps its log duplicate-free, and every logged coordinate
is cached afterwards. -/
lemma foldl_spawnStep_log_inv (noise : ℤ × ℤ → ℚ) (l : List (ℤ × ℤ))
    (p : GameState × List (ℤ × ℤ)) (hnd : p.2.Nodup)
    (hc : ∀ c ∈ p.2, ∃ t, lookupTile p.1.tiles c = some t) :
    (l.foldl (spawnStep noise) p).2.Nodup ∧
      ∀ c ∈ (l.foldl (spawnStep noise) p).2,
        ∃ t, lookupTile (l.foldl (spawnStep noise) p).1.tiles c = some t := by
  induction l generalizing p with
  | nil => exact ⟨hnd, hc⟩
  | cons a l ih =>
      obtain ⟨h1, h2⟩ := spawnStep_log_inv noise p a hnd hc
      exact ih _ h1 h2

/-- The spawn pass never destroys an existing entity. -/
lemma foldl_spawnStep_entities_mono (noise : ℤ × ℤ → ℚ) (l : List (ℤ × ℤ))
    (p : GameState × List (ℤ × ℤ)) (e : Entity) (h : e ∈ p.1.entities) :
    e ∈ (l.foldl (spawnStep noise) p).1.entities := by
  induction l generalizing p with
  | nil => exact h
  | cons a l ih => exact ih _ (spawnStep_entities_mono noise p a e h)

/-- The spawn pass preserves well-formedness and makes live exactly the
coordinates it was given, on top of the ones already live. -/
lemma foldl_spawnStep_WF (noise : ℤ × ℤ → ℚ) (l : List (ℤ × ℤ))
    (p : GameState × List (ℤ × ℤ)) (h : WF p.1) :
    WF (l.foldl (spawnStep noise) p).1 ∧
      (l.foldl (spawnStep noise) p).1.spawned = p.1.spawned ∪ l.toFinset := by
  induction l generalizing p with
  | nil => simpa using h
  | cons a l ih =>
      obtain ⟨h1, h2⟩ := ih (spawnStep noise p a) (spawnStep_WF noise p a h)
      refine ⟨h1, ?_⟩
      rw [List.foldl_cons, h2, spawnStep_spawned, List.toFinset_cons]
      ext x
      simp only [Finset.mem_union, Finset.mem_insert]
      tauto

/-- A coordinate handed to the spawn pass while not live and cached as t is
materialized as an entity of category t at its mapped world position. -/
lemma foldl_spawnStep_spawns (noise : ℤ × ℤ → ℚ) (l : List (ℤ × ℤ))
    (p : GameState × List (ℤ × ℤ)) (c : ℤ × ℤ) (t : TileType)
    (hc : c ∈ l) (hs : c ∉ p.1.spawned) (ht : lookupTile p.1.tiles c = some t) :
    (⟨to_world c, c, t⟩ : Entity) ∈ (l.foldl (spawnStep noise) p).1.entities := by
  induction l generalizing p with
  | nil => cases hc
  | cons a l ih =>
      rcases eq_or_ne c a with rfl | hne
      · have hmem : (⟨to_world c, c, t⟩ : Entity) ∈ (spawnStep noise p c).1.entities := by
          unfold spawnStep
          rw [if_neg hs, ht]
          exact List.mem_append_right _ (List.mem_singleton_self _)
        exact foldl_spawnStep_entities_mono noise l _ _ hmem
      · rcases List.mem_cons.mp hc with h | h
        · exact absurd h hne
        · refine ih (spawnStep noise p a) h ?_ (spawnStep_tiles_mono noise p a c t ht)
          rw [spawnStep_spawned]
          simp only [Finset.mem_insert]
          rintro (rfl | hsp)
          · exact hne rfl
          · exact hs hsp

/-! ### Despawn-pass lemmas -/

/-- The despawn pass leaves the cache untouched. -/
lemma despawnPass_tiles (w : Finset (ℤ × ℤ)) (s : GameState) :
    (despawnPass w s).tiles = s.tiles := rfl

/-- The despawn pass only shrinks the live set. -/
lemma despawnPass_spawned_subset (w : Finset (ℤ × ℤ)) (s : GameState) :
    (despawnPass w s).spawned ⊆ s.spawned :=
  Finset.filter_subset _ _

/-- On a well-formed state the despawn pass preserves well-formedness and
retains exactly the live coordinates that are still inside the window. -/
lemma despawnPass_spec (w : Finset (ℤ × ℤ)) (s : GameState) (h : WF s) :
    WF (despawnPass w s) ∧
      (despawnPass w s).spawned = s.spawned.filter (fun c => c ∈ w) := by
  obtain ⟨hnd, hpos, hiff⟩ := h
  have hgrid : ∀ e ∈ s.entities, to_grid e.pos = e.coord := fun e he => by
    rw [hpos e he, grid_world_roundtrip]
  have hment : ∀ e : Entity,
      e ∈ (despawnPass w s).entities ↔ e ∈ s.entities ∧ to_grid e.pos ∈ w := by
    intro e
    simp [despawnPass, List.mem_filter]
  have hsp : (despawnPass w s).spawned = s.spawned.filter (fun c => c ∈ w) := by
    ext c
    simp only [despawnPass, Finset.mem_filter]
    constructor
    · rintro ⟨hc, hw | hall⟩
      · exact ⟨hc, hw⟩
      · obtain ⟨e, he, hec⟩ := (hiff c).mp hc
        exact absurd ((hgrid e he).trans hec) (hall e he)
    · rintro ⟨hc, hw⟩
      exact ⟨hc, Or.inl hw⟩
  refine ⟨⟨?_, ?_, ?_⟩, hsp⟩
  · exact ((List.filter_sublist _).map Entity.coord).nodup hnd
  · intro e he
    exact hpos e ((hment e).mp he).1
  · intro c
    rw [hsp, Finset.mem_filter]
    constructor
    · rintro ⟨hc, hw⟩
      obtain ⟨e, he, hec⟩ := (hiff c).mp hc
      exact ⟨e, (hment e).mpr ⟨he, by rw [hgrid e he, hec]; exact hw⟩, hec⟩
    · rintro ⟨e, he, hec⟩
      obtain ⟨he', hw⟩ := (hment e).mp he
      refine ⟨(hiff c).mpr ⟨e, he', hec⟩, ?_⟩
      rw [← hec, ← hgrid e he']
      exact hw

/-! ### Tick-level lemmas (main.rs) -/

/-- The window list enumerates exactly the window Finset. -/
lemma windowList_toFinset (cx cy R : ℤ) :
    (windowList cx cy R).toFinset = visibleTiles cx cy R := by
  ext c
  rw [List.mem_toFinset, mem_windowList]

/-- One tick preserves every cache entry and never evaluates noise at an
already-cached coordinate. -/
lemma update_tilesLog_preserve (noise : ℤ × ℤ → ℚ) (cam : Option (ℚ × ℚ × ℚ))
    (s : GameState) (c : ℤ × ℤ) (t : TileType) (h : lookupTile s.tiles c = some t) :
    lookupTile (update_tilesLog noise cam s).1.tiles c = some t ∧
      c ∉ (update_tilesLog noise cam s).2 :=
  foldl_spawnStep_preserve noise _ _ c t h (by simp)

/-- One tick logs each evaluated coordinate at most once, and leaves every
logged coordinate cached. -/
lemma update_tilesLog_log_inv (noise : ℤ × ℤ → ℚ) (cam : Option (ℚ × ℚ × ℚ))
    (s : GameState) :
    (update_tilesLog noise cam s).2.Nodup ∧
      ∀ c ∈ (update_tilesLog noise cam s).2,
        ∃ t, lookupTile (update_tilesLog noise cam s).1.tiles c = some t :=
  foldl_spawnStep_log_inv noise _ _ List.nodup_nil (by simp)

/-- One tick preserves well-formedness and reconciles the live set to the
visibility window exactly. -/
lemma update_tiles_spec (noise : ℤ × ℤ → ℚ) (cam : Option (ℚ × ℚ × ℚ)) (s : GameState)
    (h : WF s) :
    WF (update_tiles noise cam s) ∧ (update_tiles noise cam s).spawned = tickWindow cam := by
  obtain ⟨hwf, hsp⟩ := despawnPass_spec (tickWindow cam) s h
  obtain ⟨hwf2, hsp2⟩ := foldl_spawnStep_WF noise
    (windowList (camCenter cam).1 (camCenter cam).2 VIEW_RADIUS)
    (despawnPass (tickWindow cam) s, []) hwf
  refine ⟨hwf2, ?_⟩
  show ((windowList (camCenter cam).1 (camCenter cam).2 VIEW_RADIUS).foldl
    (spawnStep noise) (despawnPass (tickWindow cam) s, [])).1.spawned = tickWindow cam
  rw [hsp2, windowList_toFinset]
  show (despawnPass (tickWindow cam) s).spawned ∪ tickWindow cam = tickWindow cam
  rw [hsp]
  exact Finset.union_eq_right.mpr (fun x hx => (Finset.mem_filter.mp hx).2)

/-- A run of ticks preserves every cache entry and never evaluates noise at
a coordinate cached (or already logged) at the start of the run. -/
lemma ticksFold_preserve (noise : ℤ × ℤ → ℚ) (cams : List (Option (ℚ × ℚ × ℚ)))
    (p : GameState × List (ℤ × ℤ)) (c : ℤ × ℤ) (t : TileType)
    (h : lookupTile p.1.tiles c = some t) (hl : c ∉ p.2) :
    lookupTile (cams.foldl (tickStep noise) p).1.tiles c = some t ∧
      c ∉ (cams.foldl (tickStep noise) p).2 := by
  induction cams generalizing p with
  | nil => exact ⟨h, hl⟩
  | cons cam cams ih =>
      obtain ⟨h1, h2⟩ := update_tilesLog_preserve noise cam p.1 c t h
      refine ih (tickStep noise p cam) h1 ?_
      show c ∉ p.2 ++ (update_tilesLog noise cam p.1).2
      simp only [List.mem_append]
      rintro (hc | hc)
      · exact hl hc
      · exact h2 hc

/-- Across a run of ticks, the accumulated noise-evaluation log stays
duplicate-free, and every logged coordinate remains cached. -/
lemma ticksFold_log_inv (noise : ℤ × ℤ → ℚ) (cams : List (Option (ℚ × ℚ × ℚ)))
    (p : GameState × List (ℤ × ℤ)) (hnd : p.2.Nodup)
    (hc : ∀ c ∈ p.2, ∃ t, lookupTile p.1.tiles c = some t) :
    (cams.foldl (tickStep noise) p).2.Nodup ∧
      ∀ c ∈ (cams.foldl (tickStep noise) p).2,
        ∃ t, lookupTile (cams.foldl (tickStep noise) p).1.tiles c = some t := by
  induction cams generalizing p with
  | nil => exact ⟨hnd, hc⟩
  | cons cam cams ih =>
      obtain ⟨hq1, hq2⟩ := update_tilesLog_log_inv noise cam p.1
      refine ih (tickStep noise p cam) ?_ ?_
      · show (p.2 ++ (update_tilesLog noise cam p.1).2).Nodup
        refine List.Nodup.append hnd hq1 ?_
        intro a ha hb
        obtain ⟨t, ht⟩ := hc a ha
        exact (update_tilesLog_preserve noise cam p.1 a t ht).2 hb
      · intro c hcm
        rcases List.mem_append.mp hcm with hcm | hcm
        · obtain ⟨t, ht⟩ := hc c hcm
          exact ⟨t, (update_tilesLog_preserve noise cam p.1 c t ht).1⟩
        · exact hq2 c hcm

/-- The empty initial state is well-formed. -/
lemma wf_empty : WF emptyState := by
  simp [WF, emptyState]

/-- C1: once a coordinate is cached, any number of reconciliation ticks
(despawn/respawn cycles included) returns the identical category, and the
despawn pass never touches the cache, only shrinking the live set. -/
theorem cache_immutability (noise : ℤ × ℤ → ℚ) (cams : List (Option (ℚ × ℚ × ℚ)))
    (s : GameState) (c : ℤ × ℤ) (t : TileType) (h : lookupTile s.tiles c = some t) :
    lookupTile (runTicks noise cams s).tiles c = some t ∧
      ∀ w : Finset (ℤ × ℤ), (despawnPass w s).tiles = s.tiles ∧
        (despawnPass w s).spawned ⊆ s.spawned := by
  refine ⟨?_, fun w => ⟨rfl, Finset.filter_subset _ _⟩⟩
  exact (ticksFold_preserve noise cams (s, []) c t h (by simp)).1

/-- Witness for C1: a cached coordinate survives a (zero-tick) run and an
empty-window despawn untouched. -/
theorem cache_immutability_witness :
    lookupTile oneTileState.tiles (0, 0) = some TileType.Grass ∧
      lookupTile (runTicks zeroNoise [] oneTileState).tiles (0, 0) = some TileType.Grass ∧
      (despawnPass ∅ oneTileState).tiles = oneTileState.tiles :=
  ⟨rfl, (cache_immutability zeroNoise [] oneTileState (0, 0) TileType.Grass rfl).1,
    ((cache_immutability zeroNoise [] oneTileState (0, 0) TileType.Grass rfl).2 ∅).1⟩

/-- C2: after one reconciliation pass the live set equals the visibility
window exactly: each window coordinate is live through exactly one entity
(stored coordinates are duplicate-free) and nothing outside remains live. -/
theorem reconciliation_convergence (noise : ℤ × ℤ → ℚ) (cam : Option (ℚ × ℚ × ℚ))
    (s : GameState) (h : WF s) :
    (update_tiles noise cam s).spawned = tickWindow cam ∧
      ((update_tiles noise cam s).entities.map Entity.coord).Nodup ∧
      ∀ c : ℤ × ℤ, c ∈ tickWindow cam ↔
        ∃ e ∈ (update_tiles noise cam s).entities, e.coord = c := by
  obtain ⟨hwf, hsp⟩ := update_tiles_spec noise cam s h
  refine ⟨hsp, hwf.1, fun c => ?_⟩
  rw [← hsp]
  exact hwf.2.2 c

/-- Witness for C2 from the empty initial state. -/
theorem reconciliation_convergence_witness :
    WF emptyState ∧ (update_tiles zeroNoise none emptyState).spawned = tickWindow none :=
  ⟨wf_empty, (reconciliation_convergence zeroNoise none emptyState wf_empty).1⟩

/-- C10: every live tile after a reconciliation pass has its transform and
stored coordinate consistent: re-deriving the grid coordinate from the
transform yields the stored coordinate, the invariant the despawn pass
relies on when identifying out-of-window tiles by transform. -/
theorem tile_transform_consistency (noise : ℤ × ℤ → ℚ) (cam : Option (ℚ × ℚ × ℚ))
    (s : GameState) (h : WF s) :
    (∀ e ∈ (update_tiles noise cam s).entities,
        e.pos = to_world e.coord ∧ to_grid e.pos = e.coord) ∧
      WF (update_tiles noise cam s) := by
  obtain ⟨hwf, _⟩ := update_tiles_spec noise cam s h
  refine ⟨fun e he => ?_, hwf⟩
  have hp := hwf.2.1 e he
  exact ⟨hp, by rw [hp, grid_world_roundtrip]⟩

/-- Witness for C10 from the empty initial state. -/
theorem tile_transform_consistency_witness :
    WF emptyState ∧ WF (update_tiles zeroNoise none emptyState) :=
  ⟨wf_empty, (tile_transform_consistency zeroNoise none emptyState wf_empty).2⟩

/-- C8 (amended): in main.rs a missing viewpoint is replaced by the fixed
default camera position (0, 0, -5), whose 2-D projection is the origin, and
the tick proceeds exactly as with that default viewpoint — never fatal; in
main2.rs the camera query is unwrapped, so the tick aborts when no
viewpoint exists. -/
theorem missing_viewpoint_handling (noise : ℤ × ℤ → ℚ) (s : GameState) :
    update_tiles noise none s = update_tiles noise (some DEFAULT_CAM_POS) s ∧
      DEFAULT_CAM_POS.1 = 0 ∧ DEFAULT_CAM_POS.2.1 = 0 ∧
      update_tiles2 noise none s = none :=
  ⟨rfl, rfl, rfl, rfl⟩

/-- Counterexample for C8 as stated: with no active camera, the main2.rs
reconciler does not substitute a default and continue — the tick is fatal
(the unwrap panics, modelled as none). -/
theorem missing_viewpoint_fatal_main2 :
    update_tiles2 zeroNoise none emptyState = none := rfl

/-! ### Paint lemmas (main.rs editor mode) -/

/-- In Paint mode with the pointer pressed, painting reduces to a case split
on whether a live entity stores the targeted coordinate. -/
lemma paint_reduce (wp : ℚ × ℚ) (T : TileType) (s : GameState) :
    paint_tiles EditorMode.Paint true (some wp) T s =
      match s.entities.find? (fun e => decide (e.coord = to_grid wp)) with
      | some _ =>
          { tiles := insertTile s.tiles (to_grid wp) T
            spawned := s.spawned.erase (to_grid wp)
            entities := s.entities.eraseP (fun e => decide (e.coord = to_grid wp)) }
      | none =>
          { tiles := insertTile s.tiles (to_grid wp) T
            spawned := s.spawned
            entities := s.entities } := rfl

/-- Painting when a live entity stores the targeted coordinate. -/
lemma paint_found (wp : ℚ × ℚ) (T : TileType) (s : GameState) (e : Entity)
    (hfind : s.entities.find? (fun e => decide (e.coord = to_grid wp)) = some e) :
    paint_tiles EditorMode.Paint true (some wp) T s =
      { tiles := insertTile s.tiles (to_grid wp) T
        spawned := s.spawned.erase (to_grid wp)
        entities := s.entities.eraseP (fun e => decide (e.coord = to_grid wp)) } := by
  rw [paint_reduce, hfind]

/-- Painting when no live entity stores the targeted coordinate. -/
lemma paint_notfound (wp : ℚ × ℚ) (T : TileType) (s : GameState)
    (hfind : s.entities.find? (fun e => decide (e.coord = to_grid wp)) = none) :
    paint_tiles EditorMode.Paint true (some wp) T s =
      { tiles := insertTile s.tiles (to_grid wp) T
        spawned := s.spawned
        entities := s.entities } := by
  rw [paint_reduce, hfind]

/-- Painting a coordinate stores the selected category, leaves the
coordinate not live, and leaves no remaining entity storing it. -/
lemma paint_spec (wp : ℚ × ℚ) (T : TileType) (s : GameState) (h : WF s) :
    lookupTile (paint_tiles EditorMode.Paint true (some wp) T s).tiles (to_grid wp) = some T ∧
      to_grid wp ∉ (paint_tiles EditorMode.Paint true (some wp) T s).spawned ∧
      ∀ e ∈ (paint_tiles EditorMode.Paint true (some wp) T s).entities,
        e.coord ≠ to_grid wp := by
  obtain ⟨hnd, hpos, hiff⟩ := h
  rcases hfind : s.entities.find? (fun e => decide (e.coord = to_grid wp)) with _ | e
  · have hne : ∀ e ∈ s.entities, e.coord ≠ to_grid wp := by
      intro e he
      have h2 := List.find?_eq_none.mp hfind e he
      simpa using h2
    rw [paint_notfound wp T s hfind]
    refine ⟨lookupTile_insert_self _ _ _, ?_, hne⟩
    intro hsp
    obtain ⟨e, he, hec⟩ := (hiff _).mp hsp
    exact hne e he hec
  · have hmem := List.mem_of_find?_eq_some hfind
    have hpe : e.coord = to_grid wp := by
      have h2 := List.find?_some hfind
      simpa using h2
    rw [paint_found wp T s e hfind]
    refine ⟨lookupTile_insert_self _ _ _, Finset.not_mem_erase _ _, ?_⟩
    intro e' he' hec
    obtain ⟨a, l₁, l₂, hl₁, hpa, hsplit, herase⟩ :=
      @List.exists_of_eraseP Entity (fun e => decide (e.coord = to_grid wp)) s.entities e
        hmem (by simpa using hpe)
    rw [herase] at he'
    rcases List.mem_append.mp he' with h1 | h2
    · have h3 := hl₁ e' h1
      simp [hec] at h3
    · have hacoord : a.coord = to_grid wp := by simpa using hpa
      have hnd' : (List.map Entity.coord (l₁ ++ a :: l₂)).Nodup := hsplit ▸ hnd
      rw [List.map_append, List.map_cons] at hnd'
      have h4 := (List.nodup_append.mp hnd').2.1
      rw [List.nodup_cons] at h4
      apply h4.1
      rw [hacoord, ← hec]
      exact List.mem_map_of_mem Entity.coord h2

/-- C9: painting a coordinate that is not currently live inserts or
overwrites its cache entry but leaves the live set and every existing
renderable unchanged — no despawn is issued that tick. -/
theorem paint_nonlive (wp : ℚ × ℚ) (T : TileType) (s : GameState)
    (h : ∀ e ∈ s.entities, e.coord ≠ to_grid wp) :
    lookupTile (paint_tiles EditorMode.Paint true (some wp) T s).tiles (to_grid wp) = some T ∧
      (paint_tiles EditorMode.Paint true (some wp) T s).spawned = s.spawned ∧
      (paint_tiles EditorMode.Paint true (some wp) T s).entities = s.entities := by
  have hfind : s.entities.find? (fun e => decide (e.coord = to_grid wp)) = none := by
    rw [List.find?_eq_none]
    intro e he
    simp [h e he]
  rw [paint_notfound wp T s hfind]
  exact ⟨lookupTile_insert_self _ _ _, rfl, rfl⟩

/-- Witness for C9: painting (10, 10) on the empty state. -/
theorem paint_nonlive_witness :
    (∀ e ∈ emptyState.entities, e.coord ≠ to_grid (320, 320)) ∧
      (paint_tiles EditorMode.Paint true (some (320, 320)) TileType.Water
        emptyState).spawned = emptyState.spawned :=
  ⟨by simp [emptyState],
    (paint_nonlive (320, 320) TileType.Water emptyState (by simp [emptyState])).2.1⟩

/-- C7: in Paint mode with the pointer held at a world position targeting
grid coordinate c and category T selected, the tick stores T at c in the
cache without consulting the classifier, destroys any existing tile entity
at c and removes c from the live set; if c is inside the visibility window,
the next spawn pass recreates c showing T. -/
theorem paint_override_and_respawn (noise : ℤ × ℤ → ℚ) (cam : Option (ℚ × ℚ × ℚ))
    (wp : ℚ × ℚ) (T : TileType) (s : GameState) (h : WF s) :
    lookupTile (paint_tiles EditorMode.Paint true (some wp) T s).tiles (to_grid wp) = some T ∧
      to_grid wp ∉ (paint_tiles EditorMode.Paint true (some wp) T s).spawned ∧
      (∀ e ∈ (paint_tiles EditorMode.Paint true (some wp) T s).entities,
        e.coord ≠ to_grid wp) ∧
      (to_grid wp ∈ tickWindow cam →
        (⟨to_world (to_grid wp), to_grid wp, T⟩ : Entity) ∈
          (update_tiles noise cam
            (paint_tiles EditorMode.Paint true (some wp) T s)).entities) := by
  obtain ⟨hlk, hsp, hent⟩ := paint_spec wp T s h
  refine ⟨hlk, hsp, hent, fun hw => ?_⟩
  have hd2 : to_grid wp ∉
      (despawnPass (tickWindow cam) (paint_tiles EditorMode.Paint true (some wp) T s)).spawned :=
    fun hx => hsp (despawnPass_spawned_subset _ _ hx)
  have hwl : to_grid wp ∈ windowList (camCenter cam).1 (camCenter cam).2 VIEW_RADIUS :=
    mem_windowList.mpr hw
  exact foldl_spawnStep_spawns noise _
    (despawnPass (tickWindow cam) (paint_tiles EditorMode.Paint true (some wp) T s), [])
    _ T hwl hd2 hlk

/-- Witness for C7: painting Water at world position (320, 320) on the
empty well-formed state stores Water at the targeted coordinate. -/
theorem paint_override_and_respawn_witness :
    WF emptyState ∧
      lookupTile (paint_tiles EditorMode.Paint true (some (320, 320)) TileType.Water
        emptyState).tiles (to_grid (320, 320)) = some TileType.Water :=
  ⟨wf_empty,
    (paint_override_and_respawn zeroNoise none (320, 320) TileType.Water emptyState
      wf_empty).1⟩

/-! ### Spawn-step lemmas (main2.rs) -/

/-- A main2 spawn step makes exactly its coordinate live. -/
lemma spawnStep2_spawned (noise : ℤ × ℤ → ℚ) (p : GameState × List (ℤ × ℤ)) (c : ℤ × ℤ) :
    (spawnStep2 noise p c).1.spawned = insert c p.1.spawned := by
  unfold spawnStep2
  split
  · rename_i h
    exact (Finset.insert_eq_self.mpr h).symm
  · split <;> rfl

/-- A main2 spawn step never drops logged noise evaluations. -/
lemma spawnStep2_log_mono (noise : ℤ × ℤ → ℚ) (p : GameState × List (ℤ × ℤ))
    (c' c : ℤ × ℤ) (h : c ∈ p.2) : c ∈ (spawnStep2 noise p c').2 := by
  unfold spawnStep2
  split
  · exact h
  · split <;> exact List.mem_append_left _ h

/-- The main2 spawn pass never drops logged noise evaluations. -/
lemma foldl_spawnStep2_log_mono (noise : ℤ × ℤ → ℚ) (l : List (ℤ × ℤ))
    (p : GameState × List (ℤ × ℤ)) (c : ℤ × ℤ) (h : c ∈ p.2) :
    c ∈ (l.foldl (spawnStep2 noise) p).2 := by
  induction l generalizing p with
  | nil => exact h
  | cons a l ih => exact ih _ (spawnStep2_log_mono noise p a c h)

/-- The main2 spawn pass evaluates the noise field at every handed-in
coordinate that is not yet live — cached or not. -/
lemma foldl_spawnStep2_logs (noise : ℤ × ℤ → ℚ) (l : List (ℤ × ℤ))
    (p : GameState × List (ℤ × ℤ)) (c : ℤ × ℤ) (hc : c ∈ l) (hs : c ∉ p.1.spawned) :
    c ∈ (l.foldl (spawnStep2 noise) p).2 := by
  induction l generalizing p with
  | nil => cases hc
  | cons a l ih =>
      rcases eq_or_ne c a with rfl | hne
      · have hstep : c ∈ (spawnStep2 noise p c).2 := by
          unfold spawnStep2
          rw [if_neg hs]
          split <;> exact List.mem_append_right _ (List.mem_singleton_self _)
        exact foldl_spawnStep2_log_mono noise l _ c hstep
      · rcases List.mem_cons.mp hc with h1 | h1
        · exact absurd h1 hne
        · refine ih (spawnStep2 noise p a) h1 ?_
          rw [spawnStep2_spawned]
          simp only [Finset.mem_insert]
          rintro (rfl | hx)
          · exact hne rfl
          · exact hs hx

/-- A main2 tick evaluates the noise field at every window coordinate that
is not currently live, even one whose category is already cached. -/
lemma tick2Body_relogs (noise : ℤ × ℤ → ℚ) (camPos : ℚ × ℚ × ℚ) (s : GameState)
    (c : ℤ × ℤ) (hs : c ∉ s.spawned)
    (hw : c ∈ visibleTiles (roundRat (camPos.1 / TILE_SIZE))
      (roundRat (camPos.2.1 / TILE_SIZE)) VIEW_RADIUS) :
    c ∈ (tick2Body noise camPos s).2 := by
  have hd : c ∉ (despawnPass (visibleTiles (roundRat (camPos.1 / TILE_SIZE))
      (roundRat (camPos.2.1 / TILE_SIZE)) VIEW_RADIUS) s).spawned :=
    fun hx => hs (despawnPass_spawned_subset _ _ hx)
  exact foldl_spawnStep2_logs noise _ _ c (mem_windowList.mpr hw) hd

/-- C6 (amended): in main.rs the noise field is evaluated at most once per
coordinate over any run without paint overrides (the accumulated evaluation
log is duplicate-free and never revisits a cached coordinate); in main2.rs
the averaged noise sample is instead recomputed for every visible non-live
coordinate on each respawn, even when its category is already cached — only
the classification and cache insertion are skipped on a hit. -/
theorem classifier_memoization (noise : ℤ × ℤ → ℚ) (cams : List (Option (ℚ × ℚ × ℚ)))
    (s : GameState) :
    (runTicksLog noise cams s).2.Nodup ∧
      (∀ c t, lookupTile s.tiles c = some t → c ∉ (runTicksLog noise cams s).2) ∧
      (∀ camPos : ℚ × ℚ × ℚ, ∀ c t, lookupTile s.tiles c = some t → c ∉ s.spawned →
        c ∈ visibleTiles (roundRat (camPos.1 / TILE_SIZE))
          (roundRat (camPos.2.1 / TILE_SIZE)) VIEW_RADIUS →
        c ∈ (tick2Body noise camPos s).2) := by
  refine ⟨(ticksFold_log_inv noise cams (s, []) List.nodup_nil (by simp)).1, ?_, ?_⟩
  · intro c t h
    exact (ticksFold_preserve noise cams (s, []) c t h (by simp)).2
  · intro camPos c t hct hs hw
    exact tick2Body_relogs noise camPos s c hs hw

/-- Witness for C6: over a concrete run, the log is duplicate-free and the
cached coordinate (0, 0) is never re-evaluated by main.rs. -/
theorem classifier_memoization_witness :
    (runTicksLog zeroNoise [] oneTileState).2.Nodup ∧
      lookupTile oneTileState.tiles (0, 0) = some TileType.Grass ∧
      (0, 0) ∉ (runTicksLog zeroNoise [] oneTileState).2 :=
  ⟨(classifier_memoization zeroNoise [] oneTileState).1, rfl,
    (classifier_memoization zeroNoise [] oneTileState).2.1 (0, 0) TileType.Grass rfl⟩

/-- Counterexample for C6 as stated: in the main2.rs variant, coordinate
(0, 0) — already cached as Grass but currently despawned — triggers another
noise evaluation when the tick respawns it: it appears in the tick's
noise-evaluation log. -/
theorem classifier_reevaluated_main2 :
    lookupTile oneTileState.tiles (0, 0) = some TileType.Grass ∧
      (0, 0) ∈ (tick2Body zeroNoise (0, 0, 0) oneTileState).2 := by
  refine ⟨rfl, ?_⟩
  refine tick2Body_relogs zeroNoise (0, 0, 0) oneTileState (0, 0)
    (by simp [oneTileState]) ?_
  have h0 : roundRat ((0 : ℚ) / TILE_SIZE) = 0 := by
    norm_num [roundRat, TILE_SIZE]
  show (0, 0) ∈ visibleTiles (roundRat ((0 : ℚ) / TILE_SIZE))
    (roundRat ((0 : ℚ) / TILE_SIZE)) VIEW_RADIUS
  rw [h0]
  simp only [visibleTiles, VIEW_RADIUS, Finset.mem_product, Finset.mem_Icc]
  norm_num

end TilemapGame
